import Mathlib

/-!
# A shallow embedding of the fjall / lsm-tree write path and flush manager

This file embeds, in Lean, the parts of the `marvin-j97/lsm-tree` repository
(crates `lsm-tree` and `fjall`) that the verified claims talk about:

* the flush manager (`fjall/src/flush/manager.rs`): per-partition FIFO queues
  of flush tasks and the LRU list of partitions;
* segment/sealed id generation (`src/id.rs`): base-36 encoding of
  (month, day, hour, minute, subsecond-nanos, random);
* the partition write path (`fjall/src/partition/mod.rs`): `insert`, `remove`,
  `check_memtable_overflow`, `check_write_stall` and `rotate_memtable`.

Rust `HashMap`s are embedded as association lists (the list order standing for
the map's iteration order), machine integers as `Nat`, byte strings as
`List Nat`, and side effects (journal I/O, sleeping, semaphores, compaction
notification) as an explicit event trace plus an `Env` of
environment-controlled outcomes.  Potentially non-terminating loops
(`rotate_memtable`'s write-halt loop, `check_write_stall`) take a fuel
argument and return `none` when the fuel runs out.

Definitions are translated from the source; operations of collaborator crates
whose code is not in the analysed sources (the lsm-tree memtable and
`Tree::rotate_memtable`) are modelled from the specification and marked as
such in their doc comments.
-/

namespace LsmTree

/-- Partition name (`PartitionKey` in the source; `PartitionHandle` equality
and hashing go by name, so a handle is identified by its name here). -/
abbrev PartitionKey := String

/-- A byte string (user key / user value). -/
abbrev Bytes := List Nat

/-- `lsm_tree::ValueType`: one of Value, Tombstone. -/
inductive ValueType where
  | value
  | tombstone
  deriving DecidableEq, Repr

/-- `fjall::batch::Item`: the payload of one journal record
(partition key, user key, value, value kind). -/
structure Item where
  key : Bytes
  value : Bytes
  partition : PartitionKey
  valueType : ValueType
  deriving DecidableEq, Repr

/-- One memtable entry: `(user key, LSN) ↦ (value kind, value)`.
Modelled from the spec: the memtable is an ordered in-memory structure
holding `(user key, LSN) → (value, kind)` (the `MemTable` type lives in the
lsm-tree crate, outside the analysed sources). -/
structure MemtableEntry where
  key : Bytes
  seqno : Nat
  valueType : ValueType
  value : Bytes
  deriving DecidableEq, Repr

/-- `fjall::flush::manager::Task`: a flush task
(sealed memtable id, sealed memtable, owning partition). -/
structure Task where
  id : String
  sealedMemtable : List MemtableEntry
  partition : PartitionKey
  deriving DecidableEq, Repr

/-! ## LRU list (`fjall/src/flush/manager.rs`, `LruList`) -/

namespace LruList

/-- `LruList::remove_partition`: `self.items.retain(|x| &*x.name != name)`. -/
def removePartition (items : List PartitionKey) (name : PartitionKey) :
    List PartitionKey :=
  items.filter (fun x => x != name)

/-- `LruList::refresh`: `self.items.retain(|x| x.name != partition.name);
self.items.push(partition)`. -/
def refresh (items : List PartitionKey) (partition : PartitionKey) :
    List PartitionKey :=
  items.filter (fun x => x != partition) ++ [partition]

/-- `LruList::get_least_recently_used`: if empty, `None`; otherwise remove the
front element, `refresh` it (re-append at the back) and return it. -/
def getLeastRecentlyUsed (items : List PartitionKey) :
    Option PartitionKey × List PartitionKey :=
  match items with
  | [] => (none, [])
  | front :: rest => (some front, refresh rest front)

end LruList

/-! ## Flush manager (`fjall/src/flush/manager.rs`, `FlushManager`) -/

/-- `FlushManager`: a dictionary of per-partition FIFO queues of flush tasks,
plus the LRU list.  The `HashMap` of queues is embedded as an association
list whose order stands for the map's iteration order. -/
structure FlushManager where
  queues : List (PartitionKey × List Task)
  lruList : List PartitionKey
  deriving DecidableEq, Repr

namespace FlushManager

/-- Replace the queue stored under `p` (the queue entry is assumed present;
used after `entry(p)` has materialised it). -/
def setQueue (qs : List (PartitionKey × List Task)) (p : PartitionKey)
    (q : List Task) : List (PartitionKey × List Task) :=
  qs.map (fun e => if e.1 = p then (p, q) else e)

/-- `self.queues.entry(partition_name).or_insert_with(Vec::new)`: materialise
the entry for `p`, appending an empty queue if absent. -/
def ensureQueue (qs : List (PartitionKey × List Task)) (p : PartitionKey) :
    List (PartitionKey × List Task) :=
  match qs.lookup p with
  | some _ => qs
  | none => qs ++ [(p, [])]

/-- `FlushManager::remove_partition`: erase the LRU entry and the queue. -/
def removePartition (fm : FlushManager) (name : PartitionKey) : FlushManager :=
  { queues := fm.queues.filter (fun e => e.1 != name)
    lruList := LruList.removePartition fm.lruList name }

/-- `FlushManager::get_least_recently_used_partition`. -/
def getLeastRecentlyUsedPartition (fm : FlushManager) :
    Option PartitionKey × FlushManager :=
  let (r, items) := LruList.getLeastRecentlyUsed fm.lruList
  (r, { fm with lruList := items })

/-- `FlushManager::enqueue_task`: push the task at the back of the
partition's queue, creating the queue if absent. -/
def enqueueTask (fm : FlushManager) (p : PartitionKey) (task : Task) :
    FlushManager :=
  let qs := ensureQueue fm.queues p
  let q := (qs.lookup p).getD []
  { fm with queues := setQueue qs p (q ++ [task]) }

/-- `FlushManager::collect_tasks`: walk the queues in map-iteration order,
gathering up to `limit` tasks grouped by partition; the budget check
(`cnt == limit → break 'outer'`) happens before each push, so once the
budget is exhausted mid-queue no further queue is visited. -/
def collectTasks :
    List (PartitionKey × List Task) → Nat → List (PartitionKey × List Task)
  | [], _ => []
  | (p, q) :: rest, limit =>
    if q.length = 0 then
      collectTasks rest limit
    else if limit = 0 then
      []
    else if q.length ≤ limit then
      (p, q) :: collectTasks rest (limit - q.length)
    else
      [(p, q.take limit)]

/-- `FlushManager::dequeue_tasks`: materialise the entry for
`partition_name`; if the queue has a first task, refresh that task's
partition in the LRU list; then remove the first element `cnt` times.
`Vec::remove(0)` on an empty vector panics (index out of bounds), which is
modelled by returning `none`. -/
def dequeueTasks (fm : FlushManager) (p : PartitionKey) (cnt : Nat) :
    Option FlushManager :=
  let qs := ensureQueue fm.queues p
  let q := (qs.lookup p).getD []
  let lru :=
    match q.head? with
    | some task => LruList.refresh fm.lruList task.partition
    | none => fm.lruList
  if cnt ≤ q.length then
    some { queues := setQueue qs p (q.drop cnt), lruList := lru }
  else
    none

/-- Total number of tasks in a collected grouping. -/
def sumTasks (c : List (PartitionKey × List Task)) : Nat :=
  (c.map (fun e => e.2.length)).sum

end FlushManager

/-! ## Segment / sealed id generation (`src/id.rs`) -/

/-- `BASE_36_RADIX`. -/
def BASE_36_RADIX : Nat := 36

/-- `std::char::from_digit(m, 36)`: digits `0`-`9` then lowercase
`a`-`z` (48 is the code of `0`, 97 the code of `a`). -/
def fromDigit36 (m : Nat) : Char :=
  if m < 10 then Char.ofNat (48 + m) else Char.ofNat (97 + (m - 10))

/-- The digit loop of `to_base36`, least-significant digit first:
`m = x % 36; x /= 36; push digit m; stop when x == 0`.  The first argument
is fuel, a pure termination device: `x + 1` steps always suffice because the
quotient strictly decreases (see `b36Core_fuel_irrel`). -/
def b36Core : Nat → Nat → List Nat
  | 0, _ => []
  | fuel + 1, x =>
    let m := x % BASE_36_RADIX
    let x2 := x / BASE_36_RADIX
    if x2 = 0 then [m] else m :: b36Core fuel x2

/-- The base-36 digits of `x`, least-significant first, as produced by the
loop in `to_base36`. -/
def b36Digits (x : Nat) : List Nat := b36Core (x + 1) x

/-- `to_base36`: push digits least-significant first, then reverse and map
each digit to its character. -/
def to_base36 (x : Nat) : List Char :=
  ((b36Digits x).reverse).map fromDigit36

/-- `generate_segment_id`, as a function of the drawn timestamp fields and
random component: the characters of
`format!("{}{}_{}{}_{}_{}", b36 month, b36 day, b36 hour, b36 min, b36 nano, b36 random)`. -/
def generate_segment_id (month day hour minute nano random : Nat) :
    List Char :=
  to_base36 month ++ to_base36 day ++ ['_'] ++
  to_base36 hour ++ to_base36 minute ++ ['_'] ++
  to_base36 nano ++ ['_'] ++ to_base36 random

/-- Value of a base-36 digit character (inverse of `fromDigit36`), `none`
for characters that are not base-36 digits. -/
def digitVal36 (c : Char) : Option Nat :=
  if 48 ≤ c.toNat ∧ c.toNat ≤ 57 then some (c.toNat - 48)
  else if 97 ≤ c.toNat ∧ c.toNat ≤ 122 then some (c.toNat - 97 + 10)
  else none

/-- Decode a most-significant-first base-36 numeral; `none` if any character
is not a base-36 digit. -/
def fromBase36 (l : List Char) : Option Nat :=
  l.foldl (fun acc c => acc.bind fun a => (digitVal36 c).map (fun d => a * 36 + d))
    (some 0)

/-- Strict lexicographic order on character lists (byte-wise string
comparison, as used for sorting ids). -/
def lexLt : List Char → List Char → Bool
  | [], [] => false
  | [], _ :: _ => true
  | _ :: _, [] => false
  | a :: as, b :: bs => if a < b then true else if b < a then false else lexLt as bs

/-! ## The partition write path (`fjall/src/partition/mod.rs`)

External effects are recorded in an event trace; outcomes decided outside the
analysed code (journal I/O results, generated ids, measured journal sizes)
are drawn from an `Env`. -/

/-- `fjall::Error` (variant payloads abstracted to numeric causes). -/
inductive FjallError where
  | ioError (e : Nat)
  | storageError (e : Nat)
  deriving DecidableEq, Repr

/-- Observable effects of the write path. -/
inductive Event where
  | acquireShard
  | journalWrite (item : Item) (seqno : Nat)
  | releaseShard
  | memtableApply (p : PartitionKey) (item : Item) (seqno : Nat)
  | fullLockAcquire
  | fullLockRelease
  | journalRotate
  | enqueueFlushTask (p : PartitionKey) (id : String)
  | flushSemaphoreRelease
  | notifyCompaction (p : PartitionKey)
  | sleepMs (ms : Nat)
  deriving DecidableEq, Repr

/-- Per-partition LSM-tree state, as far as the write path observes it:
the active memtable, its approximate size, the sealed (immutable) memtables
pending flush, and the number of L0 segments
(`Tree::first_level_segment_count`). -/
structure TreeState where
  activeMemtable : List MemtableEntry
  approxMemtableSize : Nat
  immutableMemtables : List (String × List MemtableEntry)
  firstLevelSegmentCount : Nat
  deriving DecidableEq, Repr

/-- The empty tree. -/
def TreeState.empty : TreeState :=
  { activeMemtable := [], approxMemtableSize := 0
    immutableMemtables := [], firstLevelSegmentCount := 0 }

/-- Modelled from the spec: the per-entry metadata overhead added to the
approximate memtable size ("a deterministic function of key and value
lengths plus metadata overhead"); the constant's exact value is irrelevant
to every claim. -/
def ENTRY_META_OVERHEAD : Nat := 18

/-- Modelled from the spec: `MemTable::insert` (lsm-tree crate, outside the
analysed sources) writes an entry, bumps the approximate size by a
deterministic function of key and value lengths plus metadata overhead, and
returns the new size. -/
def memtableInsert (t : TreeState) (key value : Bytes) (vt : ValueType)
    (seqno : Nat) : TreeState × Nat :=
  let sz := t.approxMemtableSize + (key.length + value.length + ENTRY_META_OVERHEAD)
  ({ t with
      activeMemtable := t.activeMemtable ++ [⟨key, seqno, vt, value⟩]
      approxMemtableSize := sz },
   sz)

/-- Modelled from the spec: `Tree::get_memtable_lsn` returns the maximum LSN
inserted into the active memtable, or `none` if it is empty. -/
def getMemtableLsn (t : TreeState) : Option Nat :=
  match t.activeMemtable.map (fun e => e.seqno) with
  | [] => none
  | s :: ss => some ((s :: ss).foldl max 0)

/-- Modelled from the spec: `Tree::rotate_memtable` (lsm-tree crate, outside
the analysed sources).  If the active memtable is empty it returns `none`
(a concurrent rotation already drained it); otherwise it moves the active
memtable into the immutable set keyed by the freshly generated sealed id,
installs a new empty active memtable, resets the approximate size, and
returns the yanked id and memtable. -/
def treeRotateMemtable (t : TreeState) (newId : String) :
    Option (List MemtableEntry × TreeState) :=
  if t.activeMemtable.isEmpty then none
  else
    some (t.activeMemtable,
      { t with
          activeMemtable := []
          approxMemtableSize := 0
          immutableMemtables := t.immutableMemtables ++ [(newId, t.activeMemtable)] })

/-- Keyspace-wide state touched by the write path. -/
structure KeyspaceState where
  /-- Partition registry: name ↦ tree state. -/
  partitions : List (PartitionKey × TreeState)
  /-- `SequenceNumberCounter`: the next LSN to hand out. -/
  seqno : Nat
  /-- Records appended to the active journal. -/
  journalRecords : List (Item × Nat)
  /-- Journal manager: sealed-journal entries (generation, partition-seqno map). -/
  sealedJournals : List (Nat × List (PartitionKey × Nat))
  /-- Generation counter of the active journal (bumped on each rotation). -/
  journalGeneration : Nat
  /-- The flush manager (queues + LRU list). -/
  flushManager : FlushManager
  /-- Number of flush-semaphore releases so far. -/
  flushSemReleases : Nat
  /-- Counter indexing fresh sealed-id draws from the environment. -/
  idCounter : Nat
  /-- Counter indexing journal-size measurements from the environment. -/
  envClock : Nat
  deriving DecidableEq, Repr

/-- Keyspace / partition configuration relevant to the write path. -/
structure Config where
  /-- `max_memtable_size` of the partition. -/
  maxMemtableSize : Nat
  /-- `max_journaling_size_in_bytes` of the keyspace. -/
  maxJournalingSize : Nat
  deriving DecidableEq, Repr

/-- Environment-controlled outcomes: journal-append results (`some e` is an
I/O failure with cause `e`), journal-rotation results, measured journal disk
usage, and generated sealed ids. -/
structure Env where
  journalAppend : Item → Nat → Option Nat
  rotateJournalResult : Nat → Option Nat
  journalDiskSpace : Nat → Nat
  freshId : Nat → String

/-- The tree of partition `p` (the handle's own tree; every live handle is
in the registry). -/
def treeOf (ks : KeyspaceState) (p : PartitionKey) : TreeState :=
  (ks.partitions.lookup p).getD TreeState.empty

/-- Store an updated tree for partition `p` in the registry. -/
def setTree (parts : List (PartitionKey × TreeState)) (p : PartitionKey)
    (t : TreeState) : List (PartitionKey × TreeState) :=
  parts.map (fun e => if e.1 = p then (p, t) else e)

/-- The seqno map built during rotation: every partition whose active
memtable is non-empty maps to its current max LSN, with the rotating
partition's entry overwritten by the yanked memtable's max LSN (the
rotating partition's new active memtable is already empty at this point, so
it only appears through the explicit final insert). -/
def buildSeqnoMap (parts : List (PartitionKey × TreeState)) (self : PartitionKey)
    (yankedLsn : Nat) : List (PartitionKey × Nat) :=
  ((parts.filterMap (fun e => (getMemtableLsn e.2).map (fun l => (e.1, l)))).filter
      (fun e => e.1 != self)) ++ [(self, yankedLsn)]

/-- `PartitionHandle::check_write_stall`, driven by the sequence of values
the repeated `first_level_segment_count()` reads return (index `i` is the
i-th read; concurrent compaction may change the count between reads):
while the count exceeds 20, notify the compaction manager and sleep 1
second.  Returns the read index at loop exit and the emitted events;
`none` when the fuel is exhausted before the count drops to 20. -/
def check_write_stall (p : PartitionKey) (counts : Nat → Nat) :
    Nat → Nat → Option (Nat × List Event)
  | fuel, i =>
    if counts i ≤ 20 then some (i, [])
    else
      match fuel with
      | 0 => none
      | fuel + 1 =>
        (check_write_stall p counts fuel (i + 1)).map
          (fun r => (r.1, Event.notifyCompaction p :: Event.sleepMs 1000 :: r.2))

mutual

/-- `PartitionHandle::rotate_memtable` (fuel-bounded; `none` means the fuel
ran out inside the write-halt loop or the proactive-drain recursion):
acquire the journal full lock; try to rotate the tree's memtable, returning
`Ok` immediately if the active memtable was empty; otherwise build the
seqno map, rotate the journal, enqueue a flush task, release the locks and
the flush semaphore; then, if the journal pool is above ~2/3 of
`max_journaling_size`, proactively rotate the least-recently-used
partition; and while it is above `max_journaling_size`, halt writes
(sleep 500 ms, re-measure, rotate the LRU partition). -/
def rotate_memtable (cfg : Config) (env : Env) :
    Nat → KeyspaceState → PartitionKey →
    Option (Except FjallError Unit × KeyspaceState × List Event)
  | 0, _, _ => none
  | fuel + 1, ks, p =>
    let t := treeOf ks p
    let newId := env.freshId ks.idCounter
    match treeRotateMemtable t newId with
    | none =>
      -- "Got no sealed memtable, someone beat us to it": return Ok
      -- before touching the journal manager, the flush manager or the
      -- semaphore; the only state named so far is the handle's own tree,
      -- which `treeRotateMemtable` left unchanged.
      some (.ok (), ks, [.fullLockAcquire, .fullLockRelease])
    | some (yanked, t2) =>
      let ks1 := { ks with
        idCounter := ks.idCounter + 1
        partitions := setTree ks.partitions p t2 }
      let yankedLsn := ((yanked.map (fun e => e.seqno)).foldl max 0)
      let seqnoMap := buildSeqnoMap ks1.partitions p yankedLsn
      match env.rotateJournalResult ks1.journalGeneration with
      | some e =>
        -- `journal_manager.rotate_journal(..)?` failed: the error propagates;
        -- the memtable swap has already happened.
        some (.error (.ioError e), ks1, [.fullLockAcquire, .fullLockRelease])
      | none =>
        let ks2 := { ks1 with
          journalGeneration := ks1.journalGeneration + 1
          sealedJournals := ks1.sealedJournals ++ [(ks1.journalGeneration, seqnoMap)]
          journalRecords := [] }
        let ks3 := { ks2 with
          flushManager := ks2.flushManager.enqueueTask p
            { id := newId, sealedMemtable := yanked, partition := p } }
        let journalSize := env.journalDiskSpace ks3.envClock
        let ks4 := { ks3 with
          envClock := ks3.envClock + 1
          flushSemReleases := ks3.flushSemReleases + 1 }
        let evs0 := [Event.fullLockAcquire, Event.journalRotate,
          Event.enqueueFlushTask p newId, Event.fullLockRelease,
          Event.flushSemaphoreRelease]
        -- proactive drain at ~2/3 of max_journaling_size
        let drained :=
          if cfg.maxJournalingSize * 66 / 100 < journalSize then
            let (lru, fm) := ks4.flushManager.getLeastRecentlyUsedPartition
            let ks5 := { ks4 with flushManager := fm }
            match lru with
            | some q =>
              match rotate_memtable cfg env fuel ks5 q with
              | none => none
              | some (.error e, ks6, evs) => some (some (.error e), ks6, evs)
              | some (.ok _, ks6, evs) => some (none, ks6, evs)
            | none => some (none, ks5, [])
          else some (none, ks4, [])
        match drained with
        | none => none
        | some (some err, ks6, evs1) => some (err, ks6, evs0 ++ evs1)
        | some (none, ks6, evs1) =>
          if cfg.maxJournalingSize < journalSize then
            match rotate_halt_loop cfg env fuel ks6 with
            | none => none
            | some (r, ks7, evs2) => some (r, ks7, evs0 ++ evs1 ++ evs2)
          else
            some (.ok (), ks6, evs0 ++ evs1)

/-- The write-halt loop in `rotate_memtable`: sleep 500 ms, re-measure the
journal pool size; exit when it is back under `max_journaling_size`,
otherwise rotate the least-recently-used partition and loop. -/
def rotate_halt_loop (cfg : Config) (env : Env) :
    Nat → KeyspaceState →
    Option (Except FjallError Unit × KeyspaceState × List Event)
  | 0, _ => none
  | fuel + 1, ks =>
    let bytes := env.journalDiskSpace ks.envClock
    let ks1 := { ks with envClock := ks.envClock + 1 }
    if bytes ≤ cfg.maxJournalingSize then
      some (.ok (), ks1, [.sleepMs 500])
    else
      let (lru, fm) := ks1.flushManager.getLeastRecentlyUsedPartition
      let ks2 := { ks1 with flushManager := fm }
      let afterRotate :=
        match lru with
        | some q =>
          match rotate_memtable cfg env fuel ks2 q with
          | none => none
          | some (.error e, ks3, evs) => some (some (.error e), ks3, evs)
          | some (.ok _, ks3, evs) => some (none, ks3, evs)
        | none => some (none, ks2, [])
      match afterRotate with
      | none => none
      | some (some err, ks3, evs) => some (err, ks3, Event.sleepMs 500 :: evs)
      | some (none, ks3, evs) =>
        match rotate_halt_loop cfg env fuel ks3 with
        | none => none
        | some (r, ks4, evs2) => some (r, ks4, Event.sleepMs 500 :: evs ++ evs2)

end

/-- `PartitionHandle::check_memtable_overflow`: if the returned memtable
size exceeds `max_memtable_size`, rotate the memtable (propagating its
error) and run the write-stall loop; then, if the L0 segment count exceeds
16, notify the compaction manager and sleep 100 ms — 500 ms if it exceeds
18. -/
def check_memtable_overflow (cfg : Config) (env : Env) (fuel : Nat)
    (ks : KeyspaceState) (p : PartitionKey) (size : Nat) :
    Option (Except FjallError Unit × KeyspaceState × List Event) :=
  let afterRotate :=
    if cfg.maxMemtableSize < size then
      match rotate_memtable cfg env fuel ks p with
      | none => none
      | some (.error e, ks1, evs) => some (some (.error e), ks1, evs)
      | some (.ok _, ks1, evs) =>
        match check_write_stall p (fun _ => (treeOf ks1 p).firstLevelSegmentCount) fuel 0 with
        | none => none
        | some (_, evs2) => some (none, ks1, evs ++ evs2)
    else some (none, ks, [])
  match afterRotate with
  | none => none
  | some (some err, ks1, evs) => some (err, ks1, evs)
  | some (none, ks1, evs) =>
    let segCount := (treeOf ks1 p).firstLevelSegmentCount
    if 16 < segCount then
      some (.ok (), ks1,
        evs ++ [Event.notifyCompaction p,
          Event.sleepMs (if 18 < segCount then 500 else 100)])
    else
      some (.ok (), ks1, evs)

/-- `PartitionHandle::insert`: acquire a journal shard writer, draw
`seqno.next()`, journal one `Value`-kind record (returning the I/O error
without touching the memtable on failure), release the shard, apply to the
active memtable with the same LSN, then run the overflow check. -/
def insertOp (cfg : Config) (env : Env) (fuel : Nat) (ks : KeyspaceState)
    (p : PartitionKey) (key value : Bytes) :
    Option (Except FjallError Unit × KeyspaceState × List Event) :=
  let seqno := ks.seqno
  let ks0 := { ks with seqno := ks.seqno + 1 }
  let item : Item :=
    { key := key, value := value, partition := p, valueType := .value }
  match env.journalAppend item seqno with
  | some e =>
    some (.error (.ioError e), ks0, [.acquireShard, .releaseShard])
  | none =>
    let ks1 := { ks0 with journalRecords := ks0.journalRecords ++ [(item, seqno)] }
    let (t2, memtableSize) := memtableInsert (treeOf ks1 p) key value .value seqno
    let ks2 := { ks1 with partitions := setTree ks1.partitions p t2 }
    match check_memtable_overflow cfg env fuel ks2 p memtableSize with
    | none => none
    | some (r, ks3, evs) =>
      some (r, ks3,
        [Event.acquireShard, Event.journalWrite item seqno, Event.releaseShard,
          Event.memtableApply p item seqno] ++ evs)

/-- `PartitionHandle::remove`: acquire a journal shard writer, draw
`seqno.next()`, journal one `Tombstone`-kind record with empty value bytes
(returning the I/O error without touching the memtable on failure), release
the shard, apply the tombstone to the active memtable with the same LSN,
then run the overflow check. -/
def removeOp (cfg : Config) (env : Env) (fuel : Nat) (ks : KeyspaceState)
    (p : PartitionKey) (key : Bytes) :
    Option (Except FjallError Unit × KeyspaceState × List Event) :=
  let seqno := ks.seqno
  let ks0 := { ks with seqno := ks.seqno + 1 }
  let item : Item :=
    { key := key, value := [], partition := p, valueType := .tombstone }
  match env.journalAppend item seqno with
  | some e =>
    some (.error (.ioError e), ks0, [.acquireShard, .releaseShard])
  | none =>
    let ks1 := { ks0 with journalRecords := ks0.journalRecords ++ [(item, seqno)] }
    let (t2, memtableSize) := memtableInsert (treeOf ks1 p) key [] .tombstone seqno
    let ks2 := { ks1 with partitions := setTree ks1.partitions p t2 }
    match check_memtable_overflow cfg env fuel ks2 p memtableSize with
    | none => none
    | some (r, ks3, evs) =>
      some (r, ks3,
        [Event.acquireShard, Event.journalWrite item seqno, Event.releaseShard,
          Event.memtableApply p item seqno] ++ evs)

/-- Modelled from the spec: the common write-path step sequence of §4.5,
with the record's value bytes and value kind as parameters — "1. Acquire a
journal shard writer. 2. Obtain `lsn = seqno.next()`. 3. Journal-write the
record; on failure, return IoError without touching the memtable.
4. Release the shard writer. 5. Apply to active memtable with the same LSN.
6./7. overflow, stall and L0 checks." -/
def writePathStep (cfg : Config) (env : Env) (fuel : Nat) (ks : KeyspaceState)
    (p : PartitionKey) (key value : Bytes) (vt : ValueType) :
    Option (Except FjallError Unit × KeyspaceState × List Event) :=
  let seqno := ks.seqno
  let ks0 := { ks with seqno := ks.seqno + 1 }
  let item : Item :=
    { key := key, value := value, partition := p, valueType := vt }
  match env.journalAppend item seqno with
  | some e =>
    some (.error (.ioError e), ks0, [.acquireShard, .releaseShard])
  | none =>
    let ks1 := { ks0 with journalRecords := ks0.journalRecords ++ [(item, seqno)] }
    let (t2, memtableSize) := memtableInsert (treeOf ks1 p) key value vt seqno
    let ks2 := { ks1 with partitions := setTree ks1.partitions p t2 }
    match check_memtable_overflow cfg env fuel ks2 p memtableSize with
    | none => none
    | some (r, ks3, evs) =>
      some (r, ks3,
        [Event.acquireShard, Event.journalWrite item seqno, Event.releaseShard,
          Event.memtableApply p item seqno] ++ evs)

/-! ## Supporting lemmas -/

theorem sumTasks_nil : FlushManager.sumTasks [] = 0 := rfl

theorem sumTasks_cons (p : PartitionKey) (q : List Task)
    (c : List (PartitionKey × List Task)) :
    FlushManager.sumTasks ((p, q) :: c) = q.length + FlushManager.sumTasks c := by
  simp [FlushManager.sumTasks]

theorem lookup_append_of_none {α : Type} (l1 l2 : List (PartitionKey × α))
    (p : PartitionKey) (h : l1.lookup p = none) :
    (l1 ++ l2).lookup p = l2.lookup p := by
  induction l1 with
  | nil => rfl
  | cons e rest ih =>
    obtain ⟨k, v⟩ := e
    simp only [List.lookup_cons, List.cons_append] at h ⊢
    cases he : (p == k) with
    | true => simp [he] at h
    | false => simp only [he] at h ⊢; exact ih h

/-- `refresh` on a list not containing the partition only appends it. -/
theorem refresh_of_not_mem (items : List PartitionKey) (p : PartitionKey)
    (h : p ∉ items) : LruList.refresh items p = items ++ [p] := by
  unfold LruList.refresh
  rw [List.filter_eq_self.mpr]
  intro a ha
  exact bne_iff_ne.mpr (fun e => h (e ▸ ha))

/-- `LruList.refresh` keeps the list free of duplicates. -/
theorem refresh_nodup (items : List PartitionKey) (p : PartitionKey)
    (h : items.Nodup) : (LruList.refresh items p).Nodup := by
  unfold LruList.refresh
  apply List.Nodup.append (h.filter _) (List.nodup_singleton p)
  intro a ha hb
  rw [List.mem_singleton] at hb
  subst hb
  have := List.of_mem_filter ha
  simp at this

/-- `LruList.removePartition` keeps the list free of duplicates. -/
theorem removePartition_nodup (items : List PartitionKey) (p : PartitionKey)
    (h : items.Nodup) : (LruList.removePartition items p).Nodup :=
  h.filter _

/-- Popping the least-recently-used partition keeps the list free of
duplicates, so every LRU list reachable from the empty one is
duplicate-free. -/
theorem getLeastRecentlyUsed_nodup (items : List PartitionKey)
    (h : items.Nodup) : (LruList.getLeastRecentlyUsed items).2.Nodup := by
  cases items with
  | nil => exact List.nodup_nil
  | cons x xs =>
    exact refresh_nodup xs x (List.nodup_cons.mp h).2

/-! ## Claim theorems: flush manager -/

/-- C5: for every flush-manager queue state and every limit,
`collect_tasks(limit)` returns at most `limit` tasks in total, grouped by
partition, with each partition's returned list a prefix of a queue stored
for that partition; and the walk order, while unspecified, is
deterministic: two calls on equal states return the same grouping. -/
theorem collect_tasks_spec (qs : List (PartitionKey × List Task)) (limit : Nat) :
    FlushManager.sumTasks (FlushManager.collectTasks qs limit) ≤ limit ∧
    (∀ p l, (p, l) ∈ FlushManager.collectTasks qs limit →
      ∃ q rest, (p, q) ∈ qs ∧ q = l ++ rest) ∧
    (∀ qs2 limit2, qs = qs2 → limit = limit2 →
      FlushManager.collectTasks qs limit = FlushManager.collectTasks qs2 limit2) := by
  induction qs generalizing limit with
  | nil =>
    have hnil : FlushManager.collectTasks [] limit = [] := rfl
    refine ⟨?_, ?_, ?_⟩
    · rw [hnil, sumTasks_nil]; exact Nat.zero_le limit
    · intro p l hl
      rw [hnil] at hl
      exact absurd hl (List.not_mem_nil _)
    · intro qs2 limit2 h1 h2
      subst h1; subst h2; rfl
  | cons e rest ih =>
    obtain ⟨p, q⟩ := e
    refine ⟨?_, ?_, ?_⟩
    · by_cases h0 : q.length = 0
      · simpa [FlushManager.collectTasks, h0] using (ih limit).1
      · by_cases hl0 : limit = 0
        · simp [FlushManager.collectTasks, h0, hl0, sumTasks_nil]
        · by_cases hle : q.length ≤ limit
          · have := (ih (limit - q.length)).1
            simp only [FlushManager.collectTasks, h0, hl0, hle, if_false, if_true,
              sumTasks_cons]
            omega
          · simp only [FlushManager.collectTasks, h0, hl0, hle, if_false,
              sumTasks_cons, sumTasks_nil, List.length_take]
            omega
    · intro p' l hl
      by_cases h0 : q.length = 0
      · simp only [FlushManager.collectTasks, h0, if_true] at hl
        obtain ⟨q', r', hmem, heq⟩ := (ih limit).2.1 p' l hl
        exact ⟨q', r', List.mem_cons_of_mem _ hmem, heq⟩
      · by_cases hl0 : limit = 0
        · simp [FlushManager.collectTasks, h0, hl0] at hl
        · by_cases hle : q.length ≤ limit
          · simp only [FlushManager.collectTasks, h0, hl0, hle, if_false, if_true,
              List.mem_cons] at hl
            cases hl with
            | inl h =>
              have h1 : p' = p := congrArg Prod.fst h
              have h2 : l = q := congrArg Prod.snd h
              subst h1; subst h2
              exact ⟨l, [], List.mem_cons_self _ _, by simp⟩
            | inr h =>
              obtain ⟨q', r', hmem, heq⟩ := (ih (limit - q.length)).2.1 p' l h
              exact ⟨q', r', List.mem_cons_of_mem _ hmem, heq⟩
          · simp only [FlushManager.collectTasks, h0, hl0, hle, if_false,
              List.mem_singleton] at hl
            have h1 : p' = p := congrArg Prod.fst hl
            have h2 : l = List.take limit q := congrArg Prod.snd hl
            subst h1
            exact ⟨q, q.drop limit, List.mem_cons_self _ _,
              by rw [h2, List.take_append_drop]⟩
    · intro qs2 limit2 h1 h2
      subst h1; subst h2; rfl

/-- C5 witness: a concrete state with one partition whose queue holds two
tasks, collected with limit 1. -/
theorem collect_tasks_spec_witness :
    FlushManager.sumTasks (FlushManager.collectTasks
      [("a", [⟨"m1", [], "a"⟩, ⟨"m2", [], "a"⟩])] 1) ≤ 1 ∧
    ∃ q rest, ("a", q) ∈ [("a", [(⟨"m1", [], "a"⟩ : Task), ⟨"m2", [], "a"⟩])] ∧
      q = [(⟨"m1", [], "a"⟩ : Task)] ++ rest :=
  ⟨(collect_tasks_spec [("a", [⟨"m1", [], "a"⟩, ⟨"m2", [], "a"⟩])] 1).1,
   (collect_tasks_spec [("a", [⟨"m1", [], "a"⟩, ⟨"m2", [], "a"⟩])] 1).2.1
     "a" [⟨"m1", [], "a"⟩] (by decide)⟩

/-- C6: for every non-empty (duplicate-free, as maintained by every LRU
operation) LRU list, `least_recently_used()` returns the head element and
the post-state list is the former tail with that element re-appended at the
end; for the empty list it returns `none` and leaves the list empty. -/
theorem lru_pop_reappend_spec (x : PartitionKey) (xs : List PartitionKey)
    (h : (x :: xs).Nodup) :
    LruList.getLeastRecentlyUsed (x :: xs) = (some x, xs ++ [x]) ∧
    LruList.getLeastRecentlyUsed ([] : List PartitionKey) = (none, []) := by
  refine ⟨?_, rfl⟩
  have hx : x ∉ xs := (List.nodup_cons.mp h).1
  simp only [LruList.getLeastRecentlyUsed, refresh_of_not_mem xs x hx]

/-- C6 witness: popping from the concrete list `["a", "b"]`. -/
theorem lru_pop_reappend_spec_witness :
    LruList.getLeastRecentlyUsed ["a", "b"] = (some "a", ["b", "a"]) ∧
    LruList.getLeastRecentlyUsed ([] : List PartitionKey) = (none, []) :=
  lru_pop_reappend_spec "a" ["b"] (by decide)

/-- C7 counterexample: with queue map `{"p" ↦ []}` and LRU list
`["p", "q"]`, `dequeue_tasks("p", 0)` satisfies the claim's hypothesis
(count 0 ≤ queue length 0) yet leaves the LRU list `["p", "q"]`: the
refresh — which would move `"p"` to the tail, giving `["q", "p"]` — does
not happen, because the empty queue has no first task. -/
theorem dequeue_tasks_counterexample :
    FlushManager.dequeueTasks
      { queues := [("p", [])], lruList := ["p", "q"] } "p" 0 =
      some { queues := [("p", [])], lruList := ["p", "q"] } ∧
    LruList.refresh ["p", "q"] "p" = ["q", "p"] ∧
    (["p", "q"] : List PartitionKey) ≠ ["q", "p"] :=
  ⟨rfl, rfl, by decide⟩

/-- C7 (amended): for every flush-manager state whose stored queue for the
partition holds only that partition's tasks (an absent partition's queue
being created empty by the `entry().or_insert` call) and every count not
exceeding that queue's length, `dequeue_tasks` removes exactly the first
`count` tasks from the queue (the remaining queue is the suffix) and,
whenever the queue is non-empty, refreshes that partition's position in
the LRU list (moves it to the tail); when the queue is empty (count = 0)
the LRU list is left unchanged, because the refresh is driven by the
queue's first task and an empty queue has none (see the counterexample). -/
theorem dequeue_tasks_amended (fm : FlushManager) (p : PartitionKey)
    (cnt : Nat)
    (hown : ∀ t ∈ (fm.queues.lookup p).getD [], t.partition = p)
    (h2 : cnt ≤ ((fm.queues.lookup p).getD []).length) :
    FlushManager.dequeueTasks fm p cnt =
      some { queues :=
               FlushManager.setQueue (FlushManager.ensureQueue fm.queues p) p
                 (((fm.queues.lookup p).getD []).drop cnt)
             lruList :=
               if ((fm.queues.lookup p).getD []).isEmpty then fm.lruList
               else LruList.refresh fm.lruList p } := by
  have hensure : (FlushManager.ensureQueue fm.queues p).lookup p =
      some ((fm.queues.lookup p).getD []) := by
    unfold FlushManager.ensureQueue
    cases hl : fm.queues.lookup p with
    | some q0 => simp [hl]
    | none =>
      rw [lookup_append_of_none fm.queues [(p, [])] p hl]
      simp [List.lookup]
  unfold FlushManager.dequeueTasks
  dsimp only
  rw [hensure]
  simp only [Option.getD_some]
  cases hcase : (fm.queues.lookup p).getD [] with
  | nil =>
    rw [hcase] at h2
    simp only [List.head?_nil, List.isEmpty_nil, if_true]
    rw [if_pos h2]
  | cons t ts =>
    have ht : t.partition = p := by
      rw [hcase] at hown
      exact hown t (List.mem_cons_self t ts)
    rw [hcase] at h2
    simp only [List.head?_cons, ht, List.isEmpty_cons]
    rw [if_pos h2]
    simp

/-- C7 witness: dequeuing zero tasks from a non-empty queue still refreshes
the partition's LRU position (`queue.first()` is `Some`). -/
theorem dequeue_tasks_amended_witness :
    FlushManager.dequeueTasks
      { queues := [("a", [⟨"m1", [], "a"⟩])], lruList := ["a", "b"] } "a" 0 =
      some { queues :=
               FlushManager.setQueue
                 (FlushManager.ensureQueue [("a", [⟨"m1", [], "a"⟩])] "a") "a"
                 (((([("a", [(⟨"m1", [], "a"⟩ : Task)])] : List (PartitionKey × List Task)).lookup
                     "a").getD []).drop 0)
             lruList :=
               if ((([("a", [(⟨"m1", [], "a"⟩ : Task)])] : List (PartitionKey × List Task)).lookup
                     "a").getD []).isEmpty
               then ["a", "b"] else LruList.refresh ["a", "b"] "a" } :=
  dequeue_tasks_amended
    { queues := [("a", [⟨"m1", [], "a"⟩])], lruList := ["a", "b"] }
    "a" 0 (by decide) (by decide)

/-- C10: `dequeue_tasks` is partial — whenever `count` exceeds the length
of the partition's stored queue (an absent partition's queue being created
empty, so any positive count), the repeated `Vec::remove(0)` panics,
modelled as `none`; callers must guarantee `count ≤ queue length`. -/
theorem dequeue_tasks_panics (fm : FlushManager) (p : PartitionKey) (cnt : Nat)
    (h : ((fm.queues.lookup p).getD []).length < cnt) :
    FlushManager.dequeueTasks fm p cnt = none := by
  unfold FlushManager.dequeueTasks FlushManager.ensureQueue
  cases hl : fm.queues.lookup p with
  | some q =>
    rw [hl] at h
    simp only [hl, Option.getD_some] at h ⊢
    rw [if_neg (by omega)]
  | none =>
    rw [hl] at h
    simp only [Option.getD_none, List.length_nil] at h
    simp only [hl]
    rw [lookup_append_of_none fm.queues [(p, [])] p hl]
    have hone : ([(p, [])] : List (PartitionKey × List Task)).lookup p = some [] := by
      simp [List.lookup]
    rw [hone]
    rw [if_neg (by simpa using Nat.not_le.mpr h)]

/-- C10 witness: any positive count on an absent partition panics. -/
theorem dequeue_tasks_panics_witness :
    FlushManager.dequeueTasks { queues := [], lruList := [] } "a" 1 = none :=
  dequeue_tasks_panics { queues := [], lruList := [] } "a" 1 (by decide)

/-! ## Supporting lemmas: base-36 ids -/

/-- The digit loop is insensitive to surplus fuel: `x + 1` steps already
reach the `x == 0` exit, so the fuel is a pure termination device. -/
theorem b36Core_fuel_irrel :
    ∀ fuel fuel2 x, x < fuel → x < fuel2 → b36Core fuel x = b36Core fuel2 x
  | 0, _, x, h, _ => absurd h (Nat.not_lt_zero x)
  | _ + 1, 0, x, _, h2 => absurd h2 (Nat.not_lt_zero x)
  | fuel + 1, fuel2 + 1, x, h, h2 => by
    unfold b36Core
    by_cases hz : x / BASE_36_RADIX = 0
    · simp [hz]
    · have hx : 0 < x := by
        rcases Nat.eq_zero_or_pos x with h0 | h0
        · exact absurd (by simp [h0, BASE_36_RADIX]) hz
        · exact h0
      have hlt : x / BASE_36_RADIX < x :=
        Nat.div_lt_self hx (by norm_num [BASE_36_RADIX])
      have e := b36Core_fuel_irrel fuel fuel2 (x / BASE_36_RADIX)
        (by omega) (by omega)
      simp [hz, e]

/-- Every digit the loop produces is below 36. -/
theorem b36Core_lt :
    ∀ fuel x, ∀ d ∈ b36Core fuel x, d < 36
  | 0, _, d, hd => absurd hd (List.not_mem_nil d)
  | fuel + 1, x, d, hd => by
    unfold b36Core at hd
    by_cases hz : x / BASE_36_RADIX = 0
    · rw [if_pos hz] at hd
      rw [List.mem_singleton] at hd
      subst hd
      exact Nat.mod_lt x (by norm_num [BASE_36_RADIX])
    · rw [if_neg hz] at hd
      rcases List.mem_cons.mp hd with h | h
      · subst h
        exact Nat.mod_lt x (by norm_num [BASE_36_RADIX])
      · exact b36Core_lt fuel (x / BASE_36_RADIX) d h

/-- The little-endian digits the loop produces evaluate back to `x`. -/
theorem b36Core_ofDigits :
    ∀ fuel x, x < fuel → Nat.ofDigits 36 (b36Core fuel x) = x
  | 0, x, h => absurd h (Nat.not_lt_zero x)
  | fuel + 1, x, h => by
    unfold b36Core
    by_cases hz : x / BASE_36_RADIX = 0
    · have hlt : x < 36 := by
        have := (Nat.div_eq_zero_iff (by norm_num [BASE_36_RADIX] : 0 < BASE_36_RADIX)).mp hz
        simpa [BASE_36_RADIX] using this
      have hz' : x / 36 = 0 := hz
      simp [hz', Nat.ofDigits, BASE_36_RADIX, Nat.mod_eq_of_lt hlt]
    · have hx : 0 < x := by
        rcases Nat.eq_zero_or_pos x with h0 | h0
        · exact absurd (by simp [h0, BASE_36_RADIX]) hz
        · exact h0
      have hdiv : x / BASE_36_RADIX < x :=
        Nat.div_lt_self hx (by norm_num [BASE_36_RADIX])
      have ih := b36Core_ofDigits fuel (x / BASE_36_RADIX) (by omega)
      rw [if_neg hz, Nat.ofDigits_cons, ih]
      show (x % BASE_36_RADIX : ℕ) + 36 * (x / BASE_36_RADIX) = x
      simp [BASE_36_RADIX, Nat.mod_add_div]

/-- `digitVal36` inverts `fromDigit36` on digits below 36. -/
theorem digitVal36_fromDigit36 : ∀ m < 36, digitVal36 (fromDigit36 m) = some m := by
  decide

/-- `fromDigit36` never produces the separator `'_'`. -/
theorem fromDigit36_ne_underscore : ∀ m < 36, fromDigit36 m ≠ '_' := by
  decide

/-- Folding the decoder over an encoded digit list performs the Horner
evaluation of the digits. -/
theorem fromBase36_fold (ds : List Nat) (h : ∀ d ∈ ds, d < 36) :
    ∀ acc : Nat,
      (ds.map fromDigit36).foldl
        (fun acc c => acc.bind fun a => (digitVal36 c).map (fun d => a * 36 + d))
        (some acc) =
      some (ds.foldl (fun a d => a * 36 + d) acc) := by
  induction ds with
  | nil => intro acc; rfl
  | cons d ds ih =>
    intro acc
    have hd : d < 36 := h d (List.mem_cons_self d ds)
    simp only [List.map_cons, List.foldl_cons, Option.bind_some,
      digitVal36_fromDigit36 d hd, Option.map_some]
    exact ih (fun d' hd' => h d' (List.mem_cons_of_mem _ hd')) (acc * 36 + d)

/-- Horner evaluation of the reversed digit list recovers the little-endian
valuation. -/
theorem foldl_reverse_ofDigits (ds : List Nat) :
    ∀ acc : Nat,
      ds.reverse.foldl (fun a d => a * 36 + d) acc =
        acc * 36 ^ ds.length + Nat.ofDigits 36 ds := by
  induction ds with
  | nil => intro acc; simp [Nat.ofDigits]
  | cons d ds ih =>
    intro acc
    rw [List.reverse_cons, List.foldl_append]
    simp only [List.foldl_cons, List.foldl_nil, ih acc, Nat.ofDigits_cons,
      List.length_cons]
    ring

/-! ## Claim theorems: segment id generation -/

/-- C4 counterexample: ids are not lexicographically sortable.  Take two
timestamps in the same month, day, hour, minute and second with
subsecond-nanos 35 and 36 (so t1 < t2) and the same random component 0:
the id of t1 ends in `"..._z_0"`, the id of t2 in `"..._10_0"`, and
`'z' > '1'`, so the id of the earlier timestamp compares lexicographically
*after* the id of the later one. -/
theorem generate_segment_id_counterexample :
    (35 : Nat) < 36 ∧
    lexLt (generate_segment_id 1 1 1 1 35 0) (generate_segment_id 1 1 1 1 36 0)
      = false ∧
    lexLt (generate_segment_id 1 1 1 1 36 0) (generate_segment_id 1 1 1 1 35 0)
      = true :=
  ⟨by decide, by decide, by decide⟩

/-- C4 (amended): every generated sealed/segment id is the base-36
encodings of (month, day, hour, minute, subsecond-nanos, random) laid out
as `<b36 month><b36 day>_<b36 hour><b36 min>_<b36 nanos>_<b36 random>`,
where each component is a genuine base-36 numeral — it decodes back to its
field and never contains the separator.  (The claim's lexicographic
sortability does not hold: see the counterexample.) -/
theorem generate_segment_id_amended :
    (∀ month day hour minute nano random,
      generate_segment_id month day hour minute nano random =
        to_base36 month ++ to_base36 day ++ ['_'] ++ to_base36 hour ++
        to_base36 minute ++ ['_'] ++ to_base36 nano ++ ['_'] ++ to_base36 random) ∧
    (∀ x, fromBase36 (to_base36 x) = some x) ∧
    (∀ x, '_' ∉ to_base36 x) := by
  refine ⟨fun _ _ _ _ _ _ => rfl, ?_, ?_⟩
  · intro x
    have hlt : ∀ d ∈ (b36Digits x).reverse, d < 36 := by
      intro d hd
      exact b36Core_lt (x + 1) x d (List.mem_reverse.mp hd)
    show ((b36Digits x).reverse.map fromDigit36).foldl _ (some 0) = some x
    rw [fromBase36_fold _ hlt 0, foldl_reverse_ofDigits (b36Digits x) 0]
    simp [b36Digits, b36Core_ofDigits (x + 1) x (Nat.lt_succ_self x)]
  · intro x hc
    rw [to_base36, List.mem_map] at hc
    obtain ⟨d, hd, he⟩ := hc
    exact fromDigit36_ne_underscore d
      (b36Core_lt (x + 1) x d (List.mem_reverse.mp hd)) he

/-- C4 witness: the component encodings decode correctly at a concrete
field value, by the amended theorem. -/
theorem generate_segment_id_amended_witness :
    fromBase36 (to_base36 35) = some 35 ∧ '_' ∉ to_base36 35 :=
  ⟨generate_segment_id_amended.2.1 35, generate_segment_id_amended.2.2 35⟩

/-! ## Claim theorems: write stall -/

/-- The events of `k` executed stall iterations: each notifies the
compaction manager and sleeps 1 second. -/
def stallIterEvents (p : PartitionKey) (k : Nat) : List Event :=
  (List.replicate k [Event.notifyCompaction p, Event.sleepMs 1000]).flatten

/-- C3 counterexample: `check_write_stall` reads only the handle's own
tree's L0 segment count, not every partition of the keyspace.  In a
keyspace where partition `"b"` has 21 L0 segments but partition `"a"` has
0, `check_write_stall` called on `"a"` returns immediately (zero
iterations, no signal, no sleep) although a partition of the keyspace has
an L0 segment count greater than 20. -/
theorem check_write_stall_counterexample :
    let ksdemo : KeyspaceState :=
      { partitions :=
          [("a", { TreeState.empty with firstLevelSegmentCount := 0 }),
           ("b", { TreeState.empty with firstLevelSegmentCount := 21 })]
        seqno := 0, journalRecords := [], sealedJournals := []
        journalGeneration := 0, flushManager := { queues := [], lruList := [] }
        flushSemReleases := 0, idCounter := 0, envClock := 0 }
    20 < (treeOf ksdemo "b").firstLevelSegmentCount ∧
    check_write_stall "a" (fun _ => (treeOf ksdemo "a").firstLevelSegmentCount) 0 0
      = some (0, []) :=
  ⟨by decide, rfl⟩

/-- C3 (amended): `check_write_stall` never returns while the partition's
own L0 segment count (re-read on each loop test; index `j` is the j-th
read) is greater than 20; whenever the loop exits at read `n`, the count at
`n` is at most 20, every earlier read since entry at `i` exceeded 20, and
each such iteration signalled the compaction manager and slept 1 second. -/
theorem check_write_stall_amended (p : PartitionKey) (counts : Nat → Nat) :
    ∀ fuel i n evs, check_write_stall p counts fuel i = some (n, evs) →
      i ≤ n ∧ counts n ≤ 20 ∧ (∀ j, i ≤ j → j < n → 20 < counts j) ∧
      evs = stallIterEvents p (n - i) := by
  intro fuel
  induction fuel with
  | zero =>
    intro i n evs h
    unfold check_write_stall at h
    by_cases hc : counts i ≤ 20
    · rw [if_pos hc] at h
      have h2 : (i, ([] : List Event)) = (n, evs) := Option.some_inj.mp h
      have hn : i = n := congrArg Prod.fst h2
      have he : ([] : List Event) = evs := congrArg Prod.snd h2
      subst hn
      refine ⟨le_refl i, hc, fun j hij hji => absurd hji (by omega), ?_⟩
      rw [← he]
      simp [stallIterEvents]
    · rw [if_neg hc] at h
      exact absurd h (by simp)
  | succ fuel ih =>
    intro i n evs h
    unfold check_write_stall at h
    by_cases hc : counts i ≤ 20
    · rw [if_pos hc] at h
      have h2 : (i, ([] : List Event)) = (n, evs) := Option.some_inj.mp h
      have hn : i = n := congrArg Prod.fst h2
      have he : ([] : List Event) = evs := congrArg Prod.snd h2
      subst hn
      refine ⟨le_refl i, hc, fun j hij hji => absurd hji (by omega), ?_⟩
      rw [← he]
      simp [stallIterEvents]
    · rw [if_neg hc] at h
      have hmap : Option.map
          (fun r => (r.1, Event.notifyCompaction p :: Event.sleepMs 1000 :: r.2))
          (check_write_stall p counts fuel (i + 1)) = some (n, evs) := h
      cases hr : check_write_stall p counts fuel (i + 1) with
      | none => rw [hr] at hmap; exact absurd hmap (by simp)
      | some r =>
        obtain ⟨n', evs'⟩ := r
        rw [hr] at hmap
        have h2 : (n', Event.notifyCompaction p :: Event.sleepMs 1000 :: evs') =
            (n, evs) := Option.some_inj.mp hmap
        have hn : n' = n := congrArg Prod.fst h2
        have he : Event.notifyCompaction p :: Event.sleepMs 1000 :: evs' = evs :=
          congrArg Prod.snd h2
        subst hn
        obtain ⟨hin, hcn, hall, hevs⟩ := ih (i + 1) n' evs' hr
        refine ⟨by omega, hcn, ?_, ?_⟩
        · intro j hij hjn
          rcases Nat.eq_or_lt_of_le hij with rfl | hlt
          · exact Nat.lt_of_not_le hc
          · exact hall j (by omega) hjn
        · rw [← he, hevs]
          have hsplit : n' - i = (n' - (i + 1)) + 1 := by omega
          rw [hsplit]
          simp [stallIterEvents, List.replicate_succ]

/-- C3 witness: a run that stalls for exactly one iteration. -/
theorem check_write_stall_amended_witness :
    (0 : Nat) ≤ 1 ∧ (fun j => if j = 0 then (21 : Nat) else 5) 1 ≤ 20 ∧
    (∀ j, 0 ≤ j → j < 1 → 20 < (fun j => if j = 0 then (21 : Nat) else 5) j) ∧
    ([Event.notifyCompaction "a", Event.sleepMs 1000] : List Event) =
      stallIterEvents "a" (1 - 0) :=
  check_write_stall_amended "a" (fun j => if j = 0 then 21 else 5) 2 0 1
    [Event.notifyCompaction "a", Event.sleepMs 1000] (by decide)

/-! ## Claim theorems: write path -/

/-- C1: if the journal append performed by `insert` (or `remove`) fails,
the call returns that error as IoError and the whole keyspace state except
the already-drawn sequence number is unchanged — in particular the
partition registry, hence the partition's memtable, its approximate size
and its memtable LSN, are exactly as before; the only events are acquiring
and releasing the shard writer (no memtable apply). -/
theorem insert_remove_journal_failure (cfg : Config) (env : Env) (fuel : Nat)
    (ks : KeyspaceState) (p : PartitionKey) (key value : Bytes) (e e2 : Nat)
    (h1 : env.journalAppend
      { key := key, value := value, partition := p, valueType := .value }
      ks.seqno = some e)
    (h2 : env.journalAppend
      { key := key, value := [], partition := p, valueType := .tombstone }
      ks.seqno = some e2) :
    insertOp cfg env fuel ks p key value =
      some (.error (.ioError e), { ks with seqno := ks.seqno + 1 },
        [.acquireShard, .releaseShard]) ∧
    removeOp cfg env fuel ks p key =
      some (.error (.ioError e2), { ks with seqno := ks.seqno + 1 },
        [.acquireShard, .releaseShard]) ∧
    ({ ks with seqno := ks.seqno + 1 } : KeyspaceState).partitions =
      ks.partitions := by
  refine ⟨?_, ?_, rfl⟩
  · simp only [insertOp, h1]
  · simp only [removeOp, h2]

/-- C1 witness: a concrete failing journal append. -/
theorem insert_remove_journal_failure_witness :
    insertOp { maxMemtableSize := 8, maxJournalingSize := 100 }
      { journalAppend := fun _ _ => some 7, rotateJournalResult := fun _ => none
        journalDiskSpace := fun _ => 0, freshId := fun n => toString n }
      1
      { partitions := [("a", TreeState.empty)], seqno := 5, journalRecords := []
        sealedJournals := [], journalGeneration := 0
        flushManager := { queues := [], lruList := [] }
        flushSemReleases := 0, idCounter := 0, envClock := 0 }
      "a" [1] [2] =
      some (.error (.ioError 7),
        { partitions := [("a", TreeState.empty)], seqno := 6, journalRecords := []
          sealedJournals := [], journalGeneration := 0
          flushManager := { queues := [], lruList := [] }
          flushSemReleases := 0, idCounter := 0, envClock := 0 },
        [.acquireShard, .releaseShard]) :=
  (insert_remove_journal_failure _ _ 1 _ "a" [1] [2] 7 7 rfl rfl).1

/-- C2: when the partition's active memtable is empty, `rotate_memtable`
returns success having touched nothing: the rotation short-circuits before
the journal manager is reached, so the journal is un-rotated, the sealed
journal entries, the flush manager's queues and LRU list, the semaphore
count and the partition registry are all exactly as before, and the only
events are taking and dropping the journal full lock. -/
theorem rotate_memtable_empty_noop (cfg : Config) (env : Env) (fuel : Nat)
    (ks : KeyspaceState) (p : PartitionKey)
    (h : (treeOf ks p).activeMemtable = []) :
    rotate_memtable cfg env (fuel + 1) ks p =
      some (.ok (), ks, [.fullLockAcquire, .fullLockRelease]) := by
  unfold rotate_memtable
  simp [treeRotateMemtable, h]

/-- C2 witness: rotating a partition whose active memtable is empty. -/
theorem rotate_memtable_empty_noop_witness :
    rotate_memtable { maxMemtableSize := 8, maxJournalingSize := 100 }
      { journalAppend := fun _ _ => none, rotateJournalResult := fun _ => none
        journalDiskSpace := fun _ => 0, freshId := fun n => toString n }
      1
      { partitions := [("a", TreeState.empty)], seqno := 5, journalRecords := []
        sealedJournals := [], journalGeneration := 0
        flushManager := { queues := [], lruList := ["a"] }
        flushSemReleases := 0, idCounter := 0, envClock := 0 }
      "a" =
      some (.ok (),
        { partitions := [("a", TreeState.empty)], seqno := 5, journalRecords := []
          sealedJournals := [], journalGeneration := 0
          flushManager := { queues := [], lruList := ["a"] }
          flushSemReleases := 0, idCounter := 0, envClock := 0 },
        [.fullLockAcquire, .fullLockRelease]) :=
  rotate_memtable_empty_noop _ _ 0 _ "a" rfl

/-- C8: whenever `check_memtable_overflow` completes successfully, its
event trace ends with the L0 check's contribution: exactly
`[notify compaction, sleep 100 ms]` if the final L0 segment count exceeds
16 (`sleep 500 ms` if it exceeds 18) and nothing otherwise; and when the
memtable size is within bounds (no rotation), that contribution is the
*whole* trace and the state is untouched — so with an L0 count of 16 or
less no compaction signal and no sleep occur on this path. -/
theorem memtable_overflow_l0_check (cfg : Config) (env : Env) (fuel : Nat)
    (ks ks2 : KeyspaceState) (p : PartitionKey) (size : Nat) (evs : List Event)
    (h : check_memtable_overflow cfg env fuel ks p size = some (.ok (), ks2, evs)) :
    ∃ pre, evs = pre ++
      (if 16 < (treeOf ks2 p).firstLevelSegmentCount then
        [Event.notifyCompaction p,
          Event.sleepMs
            (if 18 < (treeOf ks2 p).firstLevelSegmentCount then 500 else 100)]
      else []) ∧
      (size ≤ cfg.maxMemtableSize → pre = [] ∧ ks2 = ks) := by
  unfold check_memtable_overflow at h
  by_cases hs : cfg.maxMemtableSize < size
  · rw [if_pos hs] at h
    cases hrot : rotate_memtable cfg env fuel ks p with
    | none => rw [hrot] at h; exact absurd h (by simp)
    | some r =>
      obtain ⟨res, ks1, evs1⟩ := r
      cases res with
      | error err =>
        rw [hrot] at h
        simp at h
      | ok u =>
        rw [hrot] at h
        dsimp only at h
        cases hst : check_write_stall p
            (fun _ => (treeOf ks1 p).firstLevelSegmentCount) fuel 0 with
        | none => rw [hst] at h; exact absurd h (by simp)
        | some st =>
          obtain ⟨m, evs2⟩ := st
          rw [hst] at h
          dsimp only at h
          by_cases hseg : 16 < (treeOf ks1 p).firstLevelSegmentCount
          · rw [if_pos hseg] at h
            have h2 := Option.some_inj.mp h
            have hks : ks1 = ks2 := congrArg (fun t => t.2.1) h2
            have hev : evs1 ++ evs2 ++ _ = evs := congrArg (fun t => t.2.2) h2
            subst hks
            exact ⟨evs1 ++ evs2,
              by rw [← hev, if_pos hseg], fun hle => absurd hs (by omega)⟩
          · rw [if_neg hseg] at h
            have h2 := Option.some_inj.mp h
            have hks : ks1 = ks2 := congrArg (fun t => t.2.1) h2
            have hev : evs1 ++ evs2 = evs := congrArg (fun t => t.2.2) h2
            subst hks
            exact ⟨evs1 ++ evs2,
              by rw [← hev, if_neg hseg, List.append_nil],
              fun hle => absurd hs (by omega)⟩
  · rw [if_neg hs] at h
    dsimp only at h
    by_cases hseg : 16 < (treeOf ks p).firstLevelSegmentCount
    · rw [if_pos hseg] at h
      have h2 := Option.some_inj.mp h
      have hks : ks = ks2 := congrArg (fun t => t.2.1) h2
      have hev : [] ++ _ = evs := congrArg (fun t => t.2.2) h2
      subst hks
      exact ⟨[], by rw [← hev, if_pos hseg], fun _ => ⟨rfl, rfl⟩⟩
    · rw [if_neg hseg] at h
      have h2 := Option.some_inj.mp h
      have hks : ks = ks2 := congrArg (fun t => t.2.1) h2
      have hev : ([] : List Event) = evs := congrArg (fun t => t.2.2) h2
      subst hks
      exact ⟨[], by rw [← hev, if_neg hseg, List.append_nil], fun _ => ⟨rfl, rfl⟩⟩

/-- C8 witness: an in-bounds memtable with 17 L0 segments signals
compaction and sleeps 100 ms. -/
theorem memtable_overflow_l0_check_witness :
    ∃ pre, ([Event.notifyCompaction "a", Event.sleepMs 100] : List Event) =
      pre ++
        (if 16 < (treeOf
            { partitions := [("a", { TreeState.empty with firstLevelSegmentCount := 17 })]
              seqno := 0, journalRecords := [], sealedJournals := []
              journalGeneration := 0, flushManager := { queues := [], lruList := [] }
              flushSemReleases := 0, idCounter := 0, envClock := 0 } "a").firstLevelSegmentCount
        then
          [Event.notifyCompaction "a",
            Event.sleepMs
              (if 18 < (treeOf
                  { partitions := [("a", { TreeState.empty with firstLevelSegmentCount := 17 })]
                    seqno := 0, journalRecords := [], sealedJournals := []
                    journalGeneration := 0, flushManager := { queues := [], lruList := [] }
                    flushSemReleases := 0, idCounter := 0, envClock := 0 } "a").firstLevelSegmentCount
              then 500 else 100)]
        else []) ∧
      (5 ≤ ({ maxMemtableSize := 8, maxJournalingSize := 100 } : Config).maxMemtableSize →
        pre = [] ∧
        ({ partitions := [("a", { TreeState.empty with firstLevelSegmentCount := 17 })]
           seqno := 0, journalRecords := [], sealedJournals := []
           journalGeneration := 0, flushManager := { queues := [], lruList := [] }
           flushSemReleases := 0, idCounter := 0, envClock := 0 } : KeyspaceState) =
          { partitions := [("a", { TreeState.empty with firstLevelSegmentCount := 17 })]
            seqno := 0, journalRecords := [], sealedJournals := []
            journalGeneration := 0, flushManager := { queues := [], lruList := [] }
            flushSemReleases := 0, idCounter := 0, envClock := 0 }) :=
  memtable_overflow_l0_check { maxMemtableSize := 8, maxJournalingSize := 100 }
    { journalAppend := fun _ _ => none, rotateJournalResult := fun _ => none
      journalDiskSpace := fun _ => 0, freshId := fun n => toString n }
    0 _ _ "a" 5 _ rfl

/-- C9: `remove(partition, key)` performs exactly the same step sequence as
`insert` — acquire a shard writer, draw a fresh LSN by fetch-add, journal
one record, apply to the memtable with the same LSN, run the overflow
check — instantiated with value kind Tombstone and empty value bytes;
`insert` is the same sequence instantiated with kind Value and the given
value bytes. -/
theorem remove_refines_write_path (cfg : Config) (env : Env) (fuel : Nat)
    (ks : KeyspaceState) (p : PartitionKey) (key value : Bytes) :
    removeOp cfg env fuel ks p key =
      writePathStep cfg env fuel ks p key [] .tombstone ∧
    insertOp cfg env fuel ks p key value =
      writePathStep cfg env fuel ks p key value .value :=
  ⟨rfl, rfl⟩

end LsmTree
